import Mathlib

/-!
# Verification of the HOMR dataset binary decoder and evaluator

Shallow embedding of `labs/12/homr_dataset.py`: the TFRecord-style binary
loader (`HOMRDataset._load_data` with its nested `get_value` /
`get_value_of_kind` varint readers), the eager/lazy random-access dataset
(`HOMRDataset.Dataset`), and the edit-distance evaluator
(`HOMRDataset.EditDistanceMetric.update`, `HOMRDataset.evaluate`).

Modelling conventions:
* A byte stream is a `List Nat` of values `< 256`.
* `np.int64` is modelled as `Int` together with explicit two's-complement
  reinterpretation (`int64OfBits`) at the points where the Python code
  performs 64-bit operations; a bitwise-or with a Python int that does not
  fit in a signed 64-bit integer raises in NumPy, modelled by
  `Err.overflowError`.
* Exceptions (`assert` failures, `ValueError`, `RuntimeError`, NumPy/`array`
  errors) are modelled with `Except Err`; the error taxonomy follows the
  failure causes of the source.
* `while` loops are modelled by fuel-indexed recursion; the fuel supplied by
  the callers (`data.length + 1`) dominates the loop counts, which advance
  by at least one byte per iteration.
-/

namespace HOMR

/-- Failure causes of the loader and evaluator. -/
inductive Err where
  | truncatedStream
  | truncatedInput
  | unexpectedTag
  | lengthMismatch
  | unsupportedFieldKind (b : Nat)
  | overflowError
  | frombytesError
  | frombufferError
  | sizeMismatch
  deriving DecidableEq, Repr

/-- Little-endian interpretation of a byte list (`struct.unpack` with an
unsigned little-endian format). -/
def leNat (bs : List Nat) : Nat :=
  bs.foldr (fun b acc => b + 256 * acc) 0

/-- The `k` little-endian base-256 digits of `n` (used to build test frames;
inverse of `leNat` below `256 ^ k`). -/
def toLE : Nat → Nat → List Nat
  | 0, _ => []
  | k + 1, n => n % 256 :: toLE k (n / 256)

/-- Reinterpret the low 64 bits of a natural number as a signed two's
complement 64-bit integer (the value of an `np.int64` with those bits). -/
def int64OfBits (n : Nat) : Int :=
  if n % 18446744073709551616 < 9223372036854775808 then
    ((n % 18446744073709551616 : Nat) : Int)
  else
    ((n % 18446744073709551616 : Nat) : Int) - 18446744073709551616

/-- The 64-bit pattern of a signed 64-bit integer value. -/
def uint64OfInt (v : Int) : Nat :=
  (v % (18446744073709551616 : Int)).toNat

/-- One `value |= chunk` step of `get_value`: `value` is an `np.int64`,
`chunk` a Python int.  NumPy refuses to combine an `int64` with a Python
integer that is out of the signed 64-bit range, so a chunk `≥ 2^63` is an
error; otherwise the result is the 64-bit bitwise or. -/
def orStep (value : Int) (chunk : Nat) : Except Err Int :=
  if chunk < 9223372036854775808 then
    .ok (int64OfBits (uint64OfInt value ||| chunk))
  else
    .error .overflowError

/-- The continuation loop of `get_value`: `prev` is the byte consumed last,
`start` the position of the first byte of the varint, `offset` the next
unread position.  While the high bit of `prev` is set, the next byte's low
7 bits are or-ed into `value` at position `7 * (offset - start)`. -/
def getValueLoop (data : List Nat) (start : Nat) (prev : Nat) (value : Int)
    (offset : Nat) : Nat → Except Err (Int × Nat)
  | 0 => .error .truncatedInput
  | fuel + 1 =>
    if prev &&& 128 ≠ 0 then
      match data.get? offset with
      | none => .error .truncatedInput
      | some b =>
        match orStep value ((b &&& 127) <<< (7 * (offset - start))) with
        | .error e => .error e
        | .ok value => getValueLoop data start b value (offset + 1) fuel
    else
      .ok (value, offset)

/-- `get_value()` of `_load_data`: base-128 varint decoding starting at
`offset`, returning the decoded `np.int64` and the new offset. -/
def get_value (data : List Nat) (offset : Nat) : Except Err (Int × Nat) :=
  match data.get? offset with
  | none => .error .truncatedInput
  | some b =>
    getValueLoop data offset b (int64OfBits (b &&& 127)) (offset + 1)
      (data.length + 1)

/-- `get_value_of_kind(kind)` of `_load_data`: assert the byte at `offset`
equals `kind`, advance past it and read a varint. -/
def get_value_of_kind (data : List Nat) (offset : Nat) (kind : Nat) :
    Except Err (Int × Nat) :=
  match data.get? offset with
  | none => .error .truncatedInput
  | some b =>
    if b = kind then get_value data (offset + 1) else .error .unexpectedTag

/-- Canonical base-128 varint encoding with continuation bits (the encoding
scheme that `get_value` reads). -/
def encodeVarint (v : Nat) : List Nat :=
  if h : v < 128 then [v] else (v % 128 + 128) :: encodeVarint (v / 128)
  termination_by v
  decreasing_by exact Nat.div_lt_self (by omega) (by omega)

/-! ## Feature store (`arrays` and `indices` dictionaries) -/

/-- A `float32` element of an `array.array("f")`.  Float values are kept
symbolically by provenance: either the little-endian 32-bit pattern read
verbatim from the stream (`frombytes`), or a converted integer
(`array.append` of an `np.int64`). -/
inductive FloatElem where
  | bits (pattern : Nat)
  | ofInt (v : Int)
  deriving DecidableEq, Repr

/-- The growable typed buffer of one feature key: an `array.array` of
typecode `"B"` (bytes), `"q"` (signed 64-bit) or `"f"` (float32). -/
inductive Elems where
  | bytes (bs : List Nat)
  | ints (vs : List Int)
  | floats (fs : List FloatElem)
  deriving DecidableEq, Repr

/-- `len(arrays[key])`: the number of elements of the typed buffer. -/
def Elems.size : Elems → Nat
  | .bytes bs => bs.length
  | .ints vs => vs.length
  | .floats fs => fs.length

/-- Split a byte list into consecutive groups of `w + 1` bytes (the caller
has checked divisibility); structurally recursive on a fuel that dominates
the group count. -/
def chunksOfAux (w : Nat) : Nat → List Nat → List (List Nat)
  | _, [] => []
  | 0, _ => []
  | fuel + 1, bs => bs.take (w + 1) :: chunksOfAux w fuel (bs.drop (w + 1))

/-- Split a byte list into consecutive groups of `w + 1` bytes. -/
def chunksOf (w : Nat) (bs : List Nat) : List (List Nat) :=
  chunksOfAux w bs.length bs

/-- Signed 64-bit little-endian value of an 8-byte group. -/
def int64LE (g : List Nat) : Int := int64OfBits (leNat g)

/-- `array.frombytes(raw)`: append raw bytes, reinterpreted per typecode.
For `"q"`/`"f"` arrays the byte count must be a multiple of the item size. -/
def Elems.frombytes : Elems → List Nat → Except Err Elems
  | .bytes bs, raw => .ok (.bytes (bs ++ raw))
  | .ints vs, raw =>
    if raw.length % 8 = 0 then
      .ok (.ints (vs ++ (chunksOf 7 raw).map int64LE))
    else .error .frombytesError
  | .floats fs, raw =>
    if raw.length % 4 = 0 then
      .ok (.floats (fs ++ (chunksOf 3 raw).map (fun g => .bits (leNat g))))
    else .error .frombytesError

/-- `array.append(v)` with `v` an `np.int64`: a `"B"` array only accepts
values in `[0, 256)`, a `"q"` array accepts every `int64`, an `"f"` array
converts the integer to a float. -/
def Elems.appendInt : Elems → Int → Except Err Elems
  | .bytes bs, v =>
    if 0 ≤ v ∧ v < 256 then .ok (.bytes (bs ++ [v.toNat]))
    else .error .overflowError
  | .ints vs, v => .ok (.ints (vs ++ [v]))
  | .floats fs, v => .ok (.floats (fs ++ [.ofInt v]))

/-- Keys are the raw UTF-8 bytes of the feature name. -/
abbrev Key := List Nat

/-- The `arrays` dictionary: one typed buffer per feature key. -/
abbrev Store := List (Key × Elems)

/-- The `indices` dictionary: one cumulative-length list per feature key. -/
abbrev Indices := List (Key × List Nat)

/-- Dictionary lookup (Python `dict` access / `in` test). -/
def alookup (k : Key) : List (Key × α) → Option α
  | [] => none
  | (k', v) :: rest => if k' = k then some v else alookup k rest

/-- Replace the value stored at an existing key. -/
def aset (k : Key) (v : α) : List (Key × α) → List (Key × α)
  | [] => []
  | (k', v') :: rest =>
    if k' = k then (k', v) :: rest else (k', v') :: aset k v rest

/-- `array.array` typecode chosen at first sight of a key:
`{0x0A: "B", 0x1A: "q", 0x12: "f"}.get(dispatch_byte, "B")`. -/
def emptyElems (b : Nat) : Elems :=
  if b = 10 then .bytes []
  else if b = 26 then .ints []
  else if b = 18 then .floats []
  else .bytes []

/-! ## Payload decoding (`_load_data` inner loop) -/

/-- The packed-varint inner loop (`while offset < target_offset`): decode
varints one at a time and append each to the key's buffer. -/
def readPackedInts (data : List Nat) (target : Nat) (e : Elems)
    (offset : Nat) : Nat → Except Err (Elems × Nat)
  | 0 => .error .truncatedInput
  | fuel + 1 =>
    if offset < target then
      match get_value data offset with
      | .error err => .error err
      | .ok (v, offset) =>
        match e.appendInt v with
        | .error err => .error err
        | .ok e => readPackedInts data target e offset fuel
    else
      .ok (e, offset)

/-- Lines 116–134 of the source: given the cursor at a value union's
dispatch byte, create the key's buffers on first sight, decode the value
per the dispatch byte (`0x0A` bytes / `0x1A` packed varints / `0x12` packed
floats, anything else `ValueError`), append the decoded elements, and push
the buffer's new element count onto the key's index list.  The two
`get_value_of_kind(..) and get_value_of_kind(..)` headers follow Python
`and` semantics: the second header is only read when the first value is
non-zero. -/
def processValue (data : List Nat) (offset : Nat) (key : Key)
    (arrays : Store) (indices : Indices) :
    Except Err (Store × Indices × Nat) :=
  match data.get? offset with
  | none => .error .truncatedInput
  | some b =>
    let arrays' := if (alookup key arrays).isNone
      then arrays ++ [(key, emptyElems b)] else arrays
    let indices' := if (alookup key arrays).isNone
      then indices ++ [(key, [0])] else indices
    match alookup key arrays' with
    | none => .error .truncatedInput
    | some e =>
      let step : Except Err (Elems × Nat) :=
        if b = 10 then
          match get_value_of_kind data offset 10 with
          | .error err => .error err
          | .ok (l1, o1) =>
            match (if l1 = 0 then .ok (l1, o1)
                   else get_value_of_kind data o1 10 :
                   Except Err (Int × Nat)) with
            | .error err => .error err
            | .ok (l, o2) =>
              match e.frombytes ((data.drop o2).take l.toNat) with
              | .error err => .error err
              | .ok e => .ok (e, o2 + l.toNat)
        else if b = 26 then
          match get_value_of_kind data offset 26 with
          | .error err => .error err
          | .ok (l1, o1) =>
            match (if l1 = 0 then .ok (l1, o1)
                   else get_value_of_kind data o1 10 :
                   Except Err (Int × Nat)) with
            | .error err => .error err
            | .ok (l, o2) =>
              readPackedInts data (o2 + l.toNat) e o2 (data.length + 1)
        else if b = 18 then
          match get_value_of_kind data offset 18 with
          | .error err => .error err
          | .ok (l1, o1) =>
            match (if l1 = 0 then .ok (l1, o1)
                   else get_value_of_kind data o1 10 :
                   Except Err (Int × Nat)) with
            | .error err => .error err
            | .ok (l, o2) =>
              let cnt := l.toNat / 4
              if o2 + 4 * cnt ≤ data.length then
                match e.frombytes ((data.drop o2).take (4 * cnt)) with
                | .error err => .error err
                | .ok e => .ok (e, o2 + l.toNat)
              else .error .frombufferError
        else .error (.unsupportedFieldKind b)
      match step with
      | .error err => .error err
      | .ok (e, offset') =>
        let arrays'' := aset key e arrays'
        let indices'' := aset key
          ((alookup key indices').getD [] ++ [e.size]) indices'
        .ok (arrays'', indices'', offset')

/-- One iteration of the `while offset < len(data)` loop (lines 112–134):
field header, key name, value-union tag, then `processValue`. -/
def processEntry (data : List Nat) (offset : Nat) (arrays : Store)
    (indices : Indices) : Except Err (Store × Indices × Nat) :=
  match get_value_of_kind data offset 10 with
  | .error err => .error err
  | .ok (_, o1) =>
    match get_value_of_kind data o1 10 with
    | .error err => .error err
    | .ok (klen, o2) =>
      let key := (data.drop o2).take klen.toNat
      let o3 := o2 + klen.toNat
      match get_value_of_kind data o3 18 with
      | .error err => .error err
      | .ok (_, o4) => processValue data o4 key arrays indices

/-- The `while offset < len(data)` loop over the feature entries of one
payload. -/
def decodeEntries (data : List Nat) (arrays : Store) (indices : Indices)
    (offset : Nat) : Nat → Except Err (Store × Indices)
  | 0 => .error .truncatedInput
  | fuel + 1 =>
    if offset < data.length then
      match processEntry data offset arrays indices with
      | .error err => .error err
      | .ok (arrays, indices, offset) =>
        decodeEntries data arrays indices offset fuel
    else
      .ok (arrays, indices)

/-- Lines 108–134 of the source: decode one record's payload.  The outer
`0x0A` envelope's declared length must equal the remaining payload length
exactly, then the entry loop runs until the cursor reaches the end. -/
def decodePayload (data : List Nat) (arrays : Store) (indices : Indices) :
    Except Err (Store × Indices) :=
  match get_value_of_kind data 0 10 with
  | .error err => .error err
  | .ok (length, offset) =>
    if ((data.length - offset : Nat) : Int) = length then
      decodeEntries data arrays indices offset (data.length + 1)
    else .error .lengthMismatch

/-! ## Record framing and the full load (`_load_data` outer loop) -/

/-- Read exactly `n` bytes from the stream (`file.read(n)` followed by the
`assert len(...) == n` of the source). -/
def readN (s : List Nat) (n : Nat) : Except Err (List Nat × List Nat) :=
  if n ≤ s.length then .ok (s.take n, s.drop n) else .error .truncatedStream

/-- Lines 102–106 of the source, the record framer: an 8-byte little-endian
payload length, 4 ignored bytes, the payload, 4 more ignored bytes. -/
def readRecord (s : List Nat) : Except Err (List Nat × List Nat) :=
  match readN s 8 with
  | .error e => .error e
  | .ok (lenBytes, s) =>
    match readN s 4 with
    | .error e => .error e
    | .ok (_, s) =>
      match readN s (leNat lenBytes) with
      | .error e => .error e
      | .ok (payload, s) =>
        match readN s 4 with
        | .error e => .error e
        | .ok (_, s) => .ok (payload, s)

/-- The framing layer iterated: read exactly `n` records in order, returning
the payloads and the unread remainder of the stream. -/
def readRecords (s : List Nat) : Nat → Except Err (List (List Nat) × List Nat)
  | 0 => .ok ([], s)
  | n + 1 =>
    match readRecord s with
    | .error e => .error e
    | .ok (p, s) =>
      match readRecords s n with
      | .error e => .error e
      | .ok (ps, s) => .ok (p :: ps, s)

/-- The outer framing of one record as written in a `.tfrecord` file:
`u64-LE length · 4 bytes · payload · 4 bytes` (the two 4-byte fields are
CRC fields the loader consumes and ignores). -/
def frameRecord (p : List Nat) : List Nat :=
  toLE 8 p.length ++ [0, 0, 0, 0] ++ p ++ [0, 0, 0, 0]

/-- `HOMRDataset._load_data`: read `items` framed records from the stream
and decode each payload into the shared `arrays` / `indices` stores. -/
def load_data (s : List Nat) (items : Nat) (arrays : Store)
    (indices : Indices) : Except Err (Store × Indices) :=
  match items with
  | 0 => .ok (arrays, indices)
  | items + 1 =>
    match readRecord s with
    | .error e => .error e
    | .ok (payload, s) =>
      match decodePayload payload arrays indices with
      | .error e => .error e
      | .ok (arrays, indices) => load_data s items arrays indices

/-! ## Random access dataset (`HOMRDataset.Dataset`) -/

/-- The decoded element handed to the consumer: the raw byte range of the
encoded image (the external image-pixel decoder is applied to exactly these
bytes and is outside the core), and the marks as 64-bit class indices. -/
structure Element where
  image : List Nat
  marks : List Int
  deriving DecidableEq, Repr

/-- The `"image"` feature key as UTF-8 bytes. -/
def keyImage : Key := [105, 109, 97, 103, 101]

/-- The `"marks"` feature key as UTF-8 bytes. -/
def keyMarks : Key := [109, 97, 114, 107, 115]

/-- `Dataset._decode(data, indices, index)`: resolve example `index`'s image
byte range via `indices["image"]` and its marks slice via
`indices["marks"]`; a zero mark count yields an empty sequence.  `none`
models the exceptions of the slicing primitives (missing key, index out of
range, range outside the buffer). -/
def decodeExample (arrays : Store) (indices : Indices) (index : Nat) :
    Option Element :=
  match alookup keyImage indices, alookup keyImage arrays,
        alookup keyMarks indices, alookup keyMarks arrays with
  | some imgIdx, some (.bytes imgBytes), some mIdx, some (.ints marks) =>
    match (imgIdx.take (imgIdx.length - 1)).get? index,
          (imgIdx.drop 1).get? index,
          (mIdx.take (mIdx.length - 1)).get? index,
          (mIdx.drop 1).get? index with
    | some i0, some i1, some m0, some m1 =>
      if i0 ≤ i1 ∧ i1 ≤ imgBytes.length ∧ m0 ≤ m1 ∧ m1 ≤ marks.length then
        some ⟨(imgBytes.drop i0).take (i1 - i0),
              if m1 - m0 = 0 then [] else (marks.drop m0).take (m1 - m0)⟩
      else none
    | _, _, _, _ => none
  | _, _, _, _ => none

/-- The constructed state of a `HOMRDataset.Dataset`: `_size`, and either
the eager cache `_data` or the retained `_arrays` / `_indices`. -/
structure Dataset where
  size : Nat
  dataCache : Option (List Element)
  arraysOpt : Option Store
  indicesOpt : Option Indices
  deriving DecidableEq

/-- Collect a list of optional values, failing if any is missing. -/
def allSome : List (Option α) → Option (List α)
  | [] => some []
  | none :: _ => none
  | some x :: rest => (allSome rest).map (x :: ·)

/-- `Dataset.__init__` given the loaded stores: decode-on-demand retains the
stores; eager mode decodes every example up front (construction fails if
any example fails to decode). -/
def mkDataset (arrays : Store) (indices : Indices) (size : Nat)
    (decodeOnDemand : Bool) : Option Dataset :=
  if decodeOnDemand then
    some ⟨size, none, some arrays, some indices⟩
  else
    match allSome ((List.range size).map (decodeExample arrays indices)) with
    | none => none
    | some cache => some ⟨size, some cache, none, none⟩

/-- `Dataset.__getitem__`: `if self._data:` (Python truthiness — a `None`
cache or an *empty* cache both fall through to on-demand decoding, which
needs the retained stores). -/
def getItem (d : Dataset) (index : Nat) : Option Element :=
  match d.dataCache with
  | some cache =>
    if cache ≠ [] then cache.get? index
    else
      match d.arraysOpt, d.indicesOpt with
      | some arrays, some indices => decodeExample arrays indices index
      | _, _ => none
  | none =>
    match d.arraysOpt, d.indicesOpt with
    | some arrays, some indices => decodeExample arrays indices index
    | _, _ => none

/-! ## Edit-distance evaluator
(`EditDistanceMetric` / `evaluate`)

`torchaudio.functional.edit_distance` is an external collaborator; it is
the classic Levenshtein distance over token sequences with unit
substitution/insertion/deletion costs, embedded here by its recursive
characterization.  `torchmetrics.MeanMetric` accumulates values with unit
weight and computes their arithmetic mean; per-example scores are modelled
over `ℚ` (the fractions the claims mention are exactly representable). -/

/-- Levenshtein distance with unit costs, structurally recursive on a fuel
that dominates the recursion depth (each call shortens the combined input
by at least one token). -/
def levFuel [DecidableEq α] : Nat → List α → List α → Nat
  | _, [], ys => ys.length
  | _, x :: xs, [] => (x :: xs).length
  | 0, _, _ => 0
  | fuel + 1, x :: xs, y :: ys =>
    if x = y then levFuel fuel xs ys
    else 1 + min (levFuel fuel xs (y :: ys))
      (min (levFuel fuel (x :: xs) ys) (levFuel fuel xs ys))

/-- Levenshtein distance with unit costs. -/
def levenshtein [DecidableEq α] (xs ys : List α) : Nat :=
  levFuel (xs.length + ys.length) xs ys

/-- The per-pair body of `EditDistanceMetric.update`: filter the configured
ignore token out of both sequences, then normalize the distance by
`len(y_true) or 1`. -/
def scoreOne [DecidableEq α] (ignore : Option α) (yPred yTrue : List α) : ℚ :=
  let yTrue' := match ignore with
    | some i => yTrue.filter (· ≠ i)
    | none => yTrue
  let yPred' := match ignore with
    | some i => yPred.filter (· ≠ i)
    | none => yPred
  (levenshtein yPred' yTrue' : ℚ) /
    ((if yTrue'.length = 0 then 1 else yTrue'.length : Nat) : ℚ)

/-- `EditDistanceMetric.update(y_preds, y_trues)`: one score per
`zip(y_preds, y_trues)` pair, appended to the metric state. -/
def metricUpdate [DecidableEq α] (ignore : Option α)
    (yPreds yTrues : List (List α)) : List ℚ :=
  (yPreds.zip yTrues).map (fun py => scoreOne ignore py.1 py.2)

/-- `MeanMetric.compute()`: arithmetic mean of the accumulated values. -/
def meanCompute (scores : List ℚ) : ℚ :=
  scores.sum / (scores.length : ℚ)

/-- `HOMRDataset.evaluate` after the gold marks have been mapped through
the `MARKS` vocabulary: fail with `SizeMismatch` when the prediction count
differs from the gold count, otherwise score every pair (one
`EditDistanceMetric` call per example, no ignore token) and return
`100 * compute()`. -/
def evaluate [DecidableEq α] (gold : List (List α))
    (predictions : List (List α)) : Except Err ℚ :=
  if predictions.length ≠ gold.length then .error .sizeMismatch
  else
    .ok (100 * meanCompute
      ((gold.zip predictions).foldl
        (fun acc gp => acc ++ metricUpdate none [gp.2] [gp.1]) []))

deriving instance DecidableEq for Except

/-! ## Arithmetic and bitwise helper lemmas -/

theorem and_127_eq_mod (b : Nat) : b &&& 127 = b % 128 := by
  have h : (127 : Nat) = 2 ^ 7 - 1 := by norm_num
  rw [h, Nat.and_pow_two_sub_one_eq_mod]

theorem and_128_eq_zero (b : Nat) (h : b < 128) : b &&& 128 = 0 := by
  apply Nat.eq_of_testBit_eq
  intro i
  rw [Nat.testBit_and, Nat.zero_testBit]
  have h128 : (128 : Nat) = 2 ^ 7 := by norm_num
  rcases eq_or_ne i 7 with rfl | hi
  · have hb : b.testBit 7 = false :=
      Nat.testBit_lt_two_pow (by norm_num; omega)
    simp [hb]
  · rw [h128, Nat.testBit_two_pow_of_ne (Ne.symm hi)]
    simp

theorem and_128_of_ge (b : Nat) (h1 : 128 ≤ b) (h2 : b < 256) :
    b &&& 128 = 128 := by
  apply Nat.eq_of_testBit_eq
  intro i
  rw [Nat.testBit_and]
  have h128 : (128 : Nat) = 2 ^ 7 := by norm_num
  rcases eq_or_ne i 7 with rfl | hi
  · rw [h128, Nat.testBit_two_pow_self]
    have hb : b.testBit 7 = true := by
      rw [Nat.testBit_to_div_mod]
      have hdiv : b / 2 ^ 7 = 1 := by norm_num; omega
      rw [hdiv]
      rfl
    simp [hb]
  · rw [h128, Nat.testBit_two_pow_of_ne (Ne.symm hi)]
    simp

theorem int64OfBits_of_lt (n : Nat) (h : n < 9223372036854775808) :
    int64OfBits n = (n : Int) := by
  unfold int64OfBits
  rw [Nat.mod_eq_of_lt (by omega)]
  simp [h]

theorem uint64OfInt_coe (n : Nat) (h : n < 18446744073709551616) :
    uint64OfInt (n : Int) = n := by
  unfold uint64OfInt
  rw [Int.emod_eq_of_lt (by positivity) (by exact_mod_cast h)]
  simp

/-- Or-ing a chunk of bits strictly above the accumulated value adds it. -/
theorem lor_shift_of_lt (acc g s : Nat) (h : acc < 2 ^ s) :
    acc ||| g <<< s = acc + g * 2 ^ s := by
  rw [Nat.shiftLeft_eq, Nat.lor_comm, ← Nat.mul_comm (2 ^ s) g,
    ← Nat.mul_add_lt_is_or h g]
  omega

/-- The `value |= chunk` step on an in-range accumulator and a disjoint
in-range chunk. -/
theorem orStep_disjoint (acc g s : Nat) (hacc : acc < 2 ^ s)
    (hsum : acc + g * 2 ^ s < 9223372036854775808) :
    orStep ((acc : Nat) : Int) (g <<< s) =
      .ok (((acc + g * 2 ^ s : Nat) : Int)) := by
  have hchunk : g <<< s < 9223372036854775808 := by
    rw [Nat.shiftLeft_eq]; omega
  unfold orStep
  rw [if_pos hchunk, uint64OfInt_coe acc (by omega),
    lor_shift_of_lt acc g s hacc,
    int64OfBits_of_lt _ (by omega)]

/-! ## Varint round trip -/

theorem encodeVarint_length_pos (w : Nat) : 1 ≤ (encodeVarint w).length := by
  unfold encodeVarint
  split <;> simp

theorem encodeVarint_of_lt (w : Nat) (h : w < 128) : encodeVarint w = [w] := by
  unfold encodeVarint
  simp [h]

theorem encodeVarint_of_ge (w : Nat) (h : ¬ w < 128) :
    encodeVarint w = (w % 128 + 128) :: encodeVarint (w / 128) := by
  conv_lhs => unfold encodeVarint
  simp [h]

/-- The continuation loop of `get_value` consumes the canonical encoding of
`w` placed after `pre` and adds `w`'s value at bit position
`7 * pre.length` to the accumulator. -/
theorem getValueLoop_encode (w : Nat) (pre : List Nat) (prev acc fuel : Nat)
    (hfuel : (encodeVarint w).length + 1 ≤ fuel)
    (hacc : acc < 2 ^ (7 * pre.length))
    (hsum : acc + w * 2 ^ (7 * pre.length) < 9223372036854775808)
    (hprev : prev &&& 128 ≠ 0) :
    getValueLoop (pre ++ encodeVarint w) 0 prev ((acc : Nat) : Int)
        pre.length fuel =
      .ok (((acc + w * 2 ^ (7 * pre.length) : Nat) : Int),
           pre.length + (encodeVarint w).length) := by
  have hlen1 := encodeVarint_length_pos w
  obtain ⟨f, rfl⟩ : ∃ f, fuel = f + 1 := ⟨fuel - 1, by omega⟩
  rw [getValueLoop, if_pos hprev]
  have hget : (pre ++ encodeVarint w).get? pre.length =
      (encodeVarint w).get? 0 := by
    rw [List.get?_append_right (Nat.le_refl _), Nat.sub_self]
  by_cases hw : w < 128
  · rw [encodeVarint_of_lt w hw] at hget ⊢
    rw [hget]
    simp only [List.get?]
    rw [and_127_eq_mod, Nat.mod_eq_of_lt hw, Nat.sub_zero,
      orStep_disjoint acc w (7 * pre.length) hacc hsum]
    dsimp only
    obtain ⟨f', rfl⟩ : ∃ f', f = f' + 1 := ⟨f - 1, by omega⟩
    rw [getValueLoop, if_neg (by rw [and_128_eq_zero w hw]; simp)]
    simp
  · rw [encodeVarint_of_ge w hw] at hget ⊢
    rw [hget]
    simp only [List.get?]
    have hPw : w % 128 * 2 ^ (7 * pre.length) ≤ w * 2 ^ (7 * pre.length) :=
      Nat.mul_le_mul_right _ (Nat.mod_le w 128)
    rw [and_127_eq_mod, Nat.add_mod_right,
      Nat.mod_mod_of_dvd w (dvd_refl 128), Nat.sub_zero,
      orStep_disjoint acc (w % 128) (7 * pre.length) hacc (by omega)]
    dsimp only
    have hassoc : pre ++ (w % 128 + 128) :: encodeVarint (w / 128) =
        (pre ++ [w % 128 + 128]) ++ encodeVarint (w / 128) := by
      simp
    have hlen' : (pre ++ [w % 128 + 128]).length = pre.length + 1 := by
      simp
    have hdm : 128 * (w / 128) + w % 128 = w := Nat.div_add_mod w 128
    have hpow : 2 ^ (7 * (pre.length + 1)) = 2 ^ (7 * pre.length) * 128 := by
      rw [Nat.mul_add, Nat.pow_add]
    have hdm' : w = 128 * (w / 128) + w % 128 := (Nat.div_add_mod w 128).symm
    have hval : acc + w % 128 * 2 ^ (7 * pre.length) +
        w / 128 * 2 ^ (7 * (pre.length + 1)) =
        acc + w * 2 ^ (7 * pre.length) := by
      calc acc + w % 128 * 2 ^ (7 * pre.length) +
          w / 128 * 2 ^ (7 * (pre.length + 1))
          = acc + (128 * (w / 128) + w % 128) * 2 ^ (7 * pre.length) := by
            rw [hpow]; ring
        _ = acc + w * 2 ^ (7 * pre.length) := by rw [← hdm']
    have hrec := getValueLoop_encode (w / 128) (pre ++ [w % 128 + 128])
      (w % 128 + 128) (acc + w % 128 * 2 ^ (7 * pre.length)) f
      (by rw [encodeVarint_of_ge w hw] at hfuel; simp at hfuel; omega)
      (by rw [hlen', hpow]; have := Nat.mod_lt w (y := 128) (by omega); nlinarith)
      (by rw [hlen', hval]; omega)
      (by rw [and_128_of_ge _ (by omega) (by have := Nat.mod_lt w (y := 128) (by omega); omega)]; simp)
    rw [hlen', hval] at hrec
    rw [hassoc, hrec]
    simp only [List.length_cons]
    have harith : pre.length + 1 + (encodeVarint (w / 128)).length =
        pre.length + ((encodeVarint (w / 128)).length + 1) := by omega
    rw [harith]
  termination_by w
  decreasing_by exact Nat.div_lt_self (by omega) (by omega)

/-- Round trip of `get_value` on canonical encodings of values below `2^63`
(at most 9 encoded bytes): the decoder returns the value exactly. -/
theorem get_value_encode (v : Nat) (hv : v < 9223372036854775808) :
    get_value (encodeVarint v) 0 =
      .ok (((v : Nat) : Int), (encodeVarint v).length) := by
  by_cases hsmall : v < 128
  · rw [encodeVarint_of_lt v hsmall]
    rw [get_value]
    simp only [List.get?]
    rw [and_127_eq_mod, Nat.mod_eq_of_lt hsmall,
      int64OfBits_of_lt v (by omega)]
    rw [getValueLoop, if_neg (by rw [and_128_eq_zero v hsmall]; simp)]
    simp
  · rw [get_value]
    have henc : encodeVarint v = [v % 128 + 128] ++ encodeVarint (v / 128) := by
      rw [encodeVarint_of_ge v hsmall]; simp
    rw [henc]
    simp only [List.get?, List.append]
    have hmod : (v % 128 + 128) &&& 127 = v % 128 := by
      rw [and_127_eq_mod, Nat.add_mod_right, Nat.mod_mod_of_dvd v (dvd_refl 128)]
    rw [hmod, int64OfBits_of_lt _ (by have := Nat.mod_lt v (y := 128) (by omega); omega)]
    have hdm : 128 * (v / 128) + v % 128 = v := Nat.div_add_mod v 128
    have hloop := getValueLoop_encode (v / 128) [v % 128 + 128]
      (v % 128 + 128) (v % 128)
      (([v % 128 + 128] ++ encodeVarint (v / 128)).length + 1)
      (by simp)
      (by have := Nat.mod_lt v (y := 128) (by omega); norm_num; omega)
      (by norm_num; omega)
      (by rw [and_128_of_ge _ (by omega) (by have := Nat.mod_lt v (y := 128) (by omega); omega)]; simp)
    simp only [List.length_singleton] at hloop
    have hval : v % 128 + v / 128 * 2 ^ (7 * 1) = v := by
      norm_num; omega
    rw [hval] at hloop
    rw [hloop]
    simp only [List.length_append, List.length_singleton]

/-! ## Claim C2: varint encode/decode round trip -/

/-- C2 (counterexample): the claim asserts the round trip is exact for
*every* unsigned 64-bit value, including the 10-byte boundary encodings.
`v = 2^63` is an unsigned 64-bit value whose canonical encoding needs
10 bytes, yet `get_value` fails on it: the tenth encoded byte contributes
the chunk `1 <<< 63`, a Python integer outside the signed 64-bit range of
the `np.int64` accumulator, which NumPy refuses to combine. -/
theorem C2_counterexample :
    (9223372036854775808 : Nat) < 18446744073709551616 ∧
    (encodeVarint 9223372036854775808).length = 10 ∧
    get_value (encodeVarint 9223372036854775808) 0 =
      .error .overflowError := by
  have henc : encodeVarint 9223372036854775808 =
      [128, 128, 128, 128, 128, 128, 128, 128, 128, 1] := by
    simp [encodeVarint_of_ge, encodeVarint_of_lt]
  rw [henc]
  refine ⟨by norm_num, by decide, by decide⟩

/-- C2 (amended): encoding a value `v` with the base-128 continuation
scheme and decoding it with `get_value` yields `v` exactly for every
`v < 2^63` — in particular at the 1-, 2- and 5-byte boundaries and up to
the maximal 9-byte encoding `2^63 - 1`; the 10-byte encodings
(`2^63 ≤ v < 2^64`) instead make the reader fail, because their top chunk
does not fit the signed 64-bit `np.int64` accumulator. -/
theorem C2_varint_roundtrip_amended :
    (∀ v : Nat, v < 9223372036854775808 →
      get_value (encodeVarint v) 0 =
        .ok (((v : Nat) : Int), (encodeVarint v).length)) ∧
    (encodeVarint 127).length = 1 ∧
    (encodeVarint 128).length = 2 ∧
    (encodeVarint 268435456).length = 5 ∧
    (encodeVarint 9223372036854775807).length = 9 ∧
    get_value (encodeVarint 9223372036854775808) 0 = .error .overflowError ∧
    get_value (encodeVarint 18446744073709551615) 0 =
      .error .overflowError := by
  have h127 : encodeVarint 127 = [127] := encodeVarint_of_lt 127 (by norm_num)
  have h128 : encodeVarint 128 = [128, 1] := by
    simp [encodeVarint_of_ge, encodeVarint_of_lt]
  have h2p28 : encodeVarint 268435456 = [128, 128, 128, 128, 1] := by
    simp [encodeVarint_of_ge, encodeVarint_of_lt]
  have h9 : encodeVarint 9223372036854775807 =
      [255, 255, 255, 255, 255, 255, 255, 255, 127] := by
    simp [encodeVarint_of_ge, encodeVarint_of_lt]
  have h10 : encodeVarint 9223372036854775808 =
      [128, 128, 128, 128, 128, 128, 128, 128, 128, 1] := by
    simp [encodeVarint_of_ge, encodeVarint_of_lt]
  have hmax : encodeVarint 18446744073709551615 =
      [255, 255, 255, 255, 255, 255, 255, 255, 255, 1] := by
    simp [encodeVarint_of_ge, encodeVarint_of_lt]
  refine ⟨fun v hv => get_value_encode v hv, ?_, ?_, ?_, ?_, ?_, ?_⟩
  · rw [h127]; rfl
  · rw [h128]; rfl
  · rw [h2p28]; rfl
  · rw [h9]; rfl
  · rw [h10]; decide
  · rw [hmax]; decide

/-- C2 (witness): the round-trip theorem instantiated at `v = 300`, whose
encoding occupies two bytes. -/
theorem C2_witness :
    get_value (encodeVarint 300) 0 = .ok ((300 : Int), 2) := by
  have h := C2_varint_roundtrip_amended.1 300 (by norm_num)
  have henc : encodeVarint 300 = [172, 2] := by
    simp [encodeVarint_of_ge, encodeVarint_of_lt]
  rw [h, henc]
  rfl

/-! ## Record framing lemmas -/

theorem toLE_length (k n : Nat) : (toLE k n).length = k := by
  induction k generalizing n with
  | zero => rfl
  | succ k ih => simp [toLE, ih]

theorem leNat_toLE (k n : Nat) (h : n < 256 ^ k) : leNat (toLE k n) = n := by
  induction k generalizing n with
  | zero =>
    simp [Nat.pow_zero] at h
    simp [toLE, leNat, h]
  | succ k ih =>
    have hdiv : n / 256 < 256 ^ k := by
      rw [Nat.div_lt_iff_lt_mul (by norm_num)]
      calc n < 256 ^ (k + 1) := h
        _ = 256 ^ k * 256 := by rw [Nat.pow_succ]
    simp only [toLE, leNat, List.foldr_cons]
    have := ih (n / 256) hdiv
    simp only [leNat] at this
    rw [this]
    omega

theorem frameRecord_length (p : List Nat) :
    (frameRecord p).length = 16 + p.length := by
  simp [frameRecord, toLE_length]
  omega

theorem readN_exact (pre rest : List Nat) :
    readN (pre ++ rest) pre.length = .ok (pre, rest) := by
  unfold readN
  rw [if_pos (by simp), List.take_left, List.drop_left]

/-- Reading from a truncated stream fails when fewer than `n` bytes were
kept. -/
theorem readN_take_lt (s : List Nat) (n k : Nat) (hk : k < n) :
    readN (s.take k) n = .error .truncatedStream := by
  unfold readN
  rw [if_neg]
  simp only [List.length_take]
  omega

/-- Reading from a truncated stream behaves like reading from the full
stream when at least `n` bytes were kept. -/
theorem readN_take_ge (s : List Nat) (n k : Nat) (hn : n ≤ k)
    (hns : n ≤ s.length) :
    readN (s.take k) n = .ok (s.take n, (s.drop n).take (k - n)) := by
  unfold readN
  rw [if_pos (by simp; omega)]
  have h1 : List.take n (List.take k s) = List.take n s := by
    rw [List.take_take, Nat.min_eq_left hn]
  have h2 : List.drop n (List.take k s) = List.take (k - n) (List.drop n s) := by
    rw [List.take_drop n (k - n) s, Nat.add_sub_cancel' hn]
  rw [h1, h2]

/-- The framer on a framed record followed by anything: the payload is
recovered and the remainder left unread. -/
theorem readRecord_frame (p rest : List Nat)
    (hp : p.length < 18446744073709551616) :
    readRecord (frameRecord p ++ rest) = .ok (p, rest) := by
  unfold readRecord frameRecord
  have h8 : toLE 8 p.length ++ [0, 0, 0, 0] ++ p ++ [0, 0, 0, 0] ++ rest =
      toLE 8 p.length ++ ([0, 0, 0, 0] ++ (p ++ ([0, 0, 0, 0] ++ rest))) := by
    simp
  rw [h8]
  rw [show readN (toLE 8 p.length ++ ([0, 0, 0, 0] ++ (p ++ ([0, 0, 0, 0] ++ rest)))) 8 =
      .ok (toLE 8 p.length, [0, 0, 0, 0] ++ (p ++ ([0, 0, 0, 0] ++ rest))) from by
    have := readN_exact (toLE 8 p.length) ([0, 0, 0, 0] ++ (p ++ ([0, 0, 0, 0] ++ rest)))
    rwa [toLE_length] at this]
  dsimp only
  rw [show readN ([0, 0, 0, 0] ++ (p ++ ([0, 0, 0, 0] ++ rest))) 4 =
      .ok ([0, 0, 0, 0], p ++ ([0, 0, 0, 0] ++ rest)) from
    readN_exact [0, 0, 0, 0] (p ++ ([0, 0, 0, 0] ++ rest))]
  dsimp only
  rw [leNat_toLE 8 p.length (by norm_num; omega)]
  rw [readN_exact p ([0, 0, 0, 0] ++ rest)]
  dsimp only
  rw [show readN ([0, 0, 0, 0] ++ rest) 4 = .ok ([0, 0, 0, 0], rest) from
    readN_exact [0, 0, 0, 0] rest]

/-- A strictly truncated framed record always fails with `TruncatedStream`,
whichever of the four fields the truncation hits. -/
theorem readRecord_take (p : List Nat) (k : Nat)
    (hp : p.length < 18446744073709551616)
    (hk : k < (frameRecord p).length) :
    readRecord ((frameRecord p).take k) = .error .truncatedStream := by
  rw [frameRecord_length] at hk
  unfold readRecord frameRecord
  have h8 : toLE 8 p.length ++ [0, 0, 0, 0] ++ p ++ [0, 0, 0, 0] =
      toLE 8 p.length ++ ([0, 0, 0, 0] ++ (p ++ [0, 0, 0, 0])) := by
    simp
  rw [h8]
  set F := toLE 8 p.length ++ ([0, 0, 0, 0] ++ (p ++ [0, 0, 0, 0])) with hF
  by_cases hk8 : k < 8
  · rw [readN_take_lt F 8 k hk8]
  · rw [readN_take_ge F 8 k (by omega) (by simp [hF, toLE_length])]
    dsimp only
    rw [show F.take 8 = toLE 8 p.length from
      List.take_left' (by rw [toLE_length])]
    rw [show F.drop 8 = [0, 0, 0, 0] ++ (p ++ [0, 0, 0, 0]) from
      List.drop_left' (by rw [toLE_length])]
    by_cases hk12 : k - 8 < 4
    · rw [readN_take_lt _ 4 (k - 8) hk12]
    · rw [readN_take_ge _ 4 (k - 8) (by omega) (by simp)]
      dsimp only
      rw [show List.drop 4 ([0, 0, 0, 0] ++ (p ++ [0, 0, 0, 0])) =
          p ++ [0, 0, 0, 0] from by simp]
      rw [leNat_toLE 8 p.length (by norm_num; omega)]
      by_cases hkp : k - 8 - 4 < p.length
      · rw [readN_take_lt _ p.length (k - 8 - 4) hkp]
      · rw [readN_take_ge _ p.length (k - 8 - 4) (by omega) (by simp)]
        dsimp only
        rw [show List.drop p.length (p ++ [0, 0, 0, 0]) = [0, 0, 0, 0] from
          List.drop_left p _]
        rw [readN_take_lt _ 4 (k - 8 - 4 - p.length) (by omega)]

/-- Reading `ps.length` framed records recovers exactly the payloads, in
order, leaving the remainder unread. -/
theorem readRecords_frames (ps : List (List Nat)) (rest : List Nat)
    (h : ∀ p ∈ ps, p.length < 18446744073709551616) :
    readRecords ((ps.map frameRecord).join ++ rest) ps.length =
      .ok (ps, rest) := by
  induction ps with
  | nil => rfl
  | cons p ps ih =>
    simp only [List.map_cons, List.join_cons, List.length_cons,
      List.append_assoc]
    rw [readRecords]
    rw [readRecord_frame p ((ps.map frameRecord).join ++ rest)
      (h p (by simp))]
    dsimp only
    rw [ih (fun q hq => h q (by simp [hq]))]

/-- Asking the framer for one record more than the stream holds fails with
`TruncatedStream` instead of stopping at end-of-file. -/
theorem readRecords_no_eof (ps : List (List Nat))
    (h : ∀ p ∈ ps, p.length < 18446744073709551616) :
    readRecords ((ps.map frameRecord).join) (ps.length + 1) =
      .error .truncatedStream := by
  induction ps with
  | nil => rfl
  | cons p ps ih =>
    simp only [List.map_cons, List.join_cons, List.length_cons]
    rw [readRecords]
    rw [readRecord_frame p ((ps.map frameRecord).join) (h p (by simp))]
    dsimp only
    rw [ih (fun q hq => h q (by simp [hq]))]

/-! ## Claim C8: the record framer -/

/-- C8 (confirmed): the framer (1) reads exactly `N` records in order —
framing any payload list and reading back `N = ps.length` records returns
exactly those payloads and leaves the rest of the stream unread, each
record being `8-byte LE length · 4 ignored bytes · payload · 4 ignored
bytes`; (2) fails with `TruncatedStream` whenever the stream is cut short
anywhere inside a record's four fields; (3) never self-terminates at
end-of-file: asking for one more record than the stream holds is a
`TruncatedStream` error, not a short result. -/
theorem C8_framer :
    (∀ (ps : List (List Nat)) (rest : List Nat),
      (∀ p ∈ ps, p.length < 18446744073709551616) →
      readRecords ((ps.map frameRecord).join ++ rest) ps.length =
        .ok (ps, rest)) ∧
    (∀ (p : List Nat) (k : Nat), p.length < 18446744073709551616 →
      k < (frameRecord p).length →
      readRecord ((frameRecord p).take k) = .error .truncatedStream) ∧
    (∀ ps : List (List Nat),
      (∀ p ∈ ps, p.length < 18446744073709551616) →
      readRecords ((ps.map frameRecord).join) (ps.length + 1) =
        .error .truncatedStream) :=
  ⟨readRecords_frames, readRecord_take, readRecords_no_eof⟩

/-- C8 (witness): the framer theorem instantiated on a concrete two-record
stream, a concrete truncation point inside the payload field, and a
concrete over-count. -/
theorem C8_witness :
    readRecords (([[7, 8], [9]].map frameRecord).join ++ [1, 2, 3]) 2 =
      .ok ([[7, 8], [9]], [1, 2, 3]) ∧
    readRecord ((frameRecord [5, 6]).take 13) = .error .truncatedStream ∧
    readRecords (([[7, 8], [9]].map frameRecord).join) 3 =
      .error .truncatedStream := by
  refine ⟨?_, ?_, ?_⟩
  · exact C8_framer.1 [[7, 8], [9]] [1, 2, 3] (by decide)
  · exact C8_framer.2.1 [5, 6] 13 (by decide) (by decide)
  · exact C8_framer.2.2 [[7, 8], [9]] (by decide)

/-! ## Single-byte varint reads -/

theorem get_value_single (data : List Nat) (off b : Nat)
    (h1 : data.get? off = some b) (h2 : b < 128) :
    get_value data off = .ok (((b : Nat) : Int), off + 1) := by
  rw [get_value, h1]
  dsimp only
  rw [and_127_eq_mod, Nat.mod_eq_of_lt h2, int64OfBits_of_lt b (by omega)]
  rw [getValueLoop, if_neg (by rw [and_128_eq_zero b h2]; simp)]

theorem gvk_single (data : List Nat) (off kind b : Nat)
    (ht : data.get? off = some kind) (h1 : data.get? (off + 1) = some b)
    (h2 : b < 128) :
    get_value_of_kind data off kind = .ok (((b : Nat) : Int), off + 1 + 1) := by
  rw [get_value_of_kind, ht]
  dsimp only
  rw [if_pos rfl]
  exact get_value_single data (off + 1) b h1 h2

/-! ## A synthetic single-key record with a bytes-kind value

`mkPayload kb bs` is the payload of one record holding exactly one feature
entry: key name the single byte `kb`, value the raw bytes `bs` under the
`0x0A` (bytes) kind.  All varints are single bytes, which confines `bs` to
at most 100 bytes. -/

/-- One synthetic record payload: envelope, field header, key name, value
union, then the two bytes-branch length headers and the `bs` data. -/
def mkPayload (kb : Nat) (bs : List Nat) : List Nat :=
  10 :: (bs.length + 11) :: 10 :: 0 :: 10 :: 1 :: kb :: 18 :: 0 :: 10 ::
    (bs.length + 2) :: 10 :: bs.length :: bs

theorem mkPayload_length (kb : Nat) (bs : List Nat) :
    (mkPayload kb bs).length = bs.length + 13 := by
  simp [mkPayload]

/-- Decoding one synthetic record (key `"k"` = byte 107, value bytes
`[65]`) against a store already holding the key with bytes kind appends the
byte to the buffer and one cumulative length to the index. -/
theorem decodePayload_one (acc ixs : List Nat) :
    decodePayload (mkPayload 107 [65]) [([107], .bytes acc)] [([107], ixs)] =
      .ok ([([107], .bytes (acc ++ [65]))],
           [([107], ixs ++ [(acc ++ [65]).length])]) := rfl

/-- Decoding the synthetic record against the empty store creates the key
(bytes kind from the `0x0A` dispatch byte) with index `[0]` and then closes
the example. -/
theorem decodePayload_one_fresh :
    decodePayload (mkPayload 107 [65]) [] [] =
      .ok ([([107], .bytes [65])], [([107], [0, 1])]) := rfl

/-- `_load_data` peels one well-framed record off the stream and decodes
it before the remaining records. -/
theorem load_data_frame (p s : List Nat) (k : Nat) (a : Store) (i : Indices)
    (hp : p.length < 18446744073709551616) :
    load_data (frameRecord p ++ s) (k + 1) a i =
      match decodePayload p a i with
      | .error e => .error e
      | .ok (a, i) => load_data s k a i := by
  rw [load_data, readRecord_frame p s hp]

/-- The cumulative counts `[c + 1, c + 2, …, c + K]` recorded by `K`
consecutive one-element examples on top of `c` stored elements. -/
def c1Index (c : Nat) : Nat → List Nat
  | 0 => []
  | k + 1 => (c + 1) :: c1Index (c + 1) k

theorem c1Index_length (c k : Nat) : (c1Index c k).length = k := by
  induction k generalizing c with
  | zero => rfl
  | succ k ih => simp [c1Index, ih]

theorem c1Index_chain (c k : Nat) :
    List.Chain' (· ≤ ·) (c :: c1Index c k) := by
  induction k generalizing c with
  | zero => simp [c1Index]
  | succ k ih =>
    rw [c1Index, List.chain'_cons]
    exact ⟨by omega, ih (c + 1)⟩

/-- Loading `K` synthetic one-key records on top of a store holding the key
appends `K` bytes and `K` index entries. -/
theorem load_data_replicate (K : Nat) :
    ∀ (acc ixs : List Nat),
    load_data ((List.replicate K (frameRecord (mkPayload 107 [65]))).join) K
      [([107], .bytes acc)] [([107], ixs)] =
      .ok ([([107], .bytes (acc ++ List.replicate K 65))],
           [([107], ixs ++ c1Index acc.length K)]) := by
  induction K with
  | zero => intro acc ixs; simp [load_data, c1Index]
  | succ K ih =>
    intro acc ixs
    rw [List.replicate_succ]
    rw [show (frameRecord (mkPayload 107 [65]) ::
        List.replicate K (frameRecord (mkPayload 107 [65]))).join =
        frameRecord (mkPayload 107 [65]) ++
        (List.replicate K (frameRecord (mkPayload 107 [65]))).join from rfl]
    rw [load_data_frame (mkPayload 107 [65]) _ K _ _ (by norm_num [mkPayload]),
      decodePayload_one]
    dsimp only
    rw [ih]
    have hb : (acc ++ [65]) ++ List.replicate K 65 =
        acc ++ List.replicate (K + 1) 65 := by
      rw [List.replicate_succ, List.append_assoc]
      rfl
    have hi : (ixs ++ [(acc ++ [65]).length]) ++
        c1Index (acc ++ [65]).length K =
        ixs ++ c1Index acc.length (K + 1) := by
      rw [List.length_append, List.length_singleton, c1Index,
        List.append_assoc]
      rfl
    rw [hb, hi]

/-! ## Claim C1: index bookkeeping of `_load_data` -/

/-- A record payload holding the same key (byte 107) twice, each occurrence
with one value byte `65`. -/
def dupPayload : List Nat :=
  10 :: 24 :: (10 :: 0 :: 10 :: 1 :: 107 :: 18 :: 0 :: 10 :: 3 :: 10 :: 1 ::
    65 :: 10 :: 0 :: 10 :: 1 :: 107 :: 18 :: 0 :: 10 :: 3 :: 10 :: 1 :: 65 ::
    [])

/-- C1 (counterexample): a corpus of `K = 2` records where key `[97]`
appears only in the first record (and key `[98]` only in the second) loads
successfully, yet the index of key `[97]` has 2 entries, not `K + 1 = 3`:
the loader appends one index entry per *occurrence*, not per record. -/
theorem C1_counterexample :
    load_data (frameRecord (mkPayload 97 [65]) ++
        frameRecord (mkPayload 98 [66])) 2 [] [] =
      .ok ([([97], .bytes [65]), ([98], .bytes [66])],
           [([97], [0, 1]), ([98], [0, 1])]) ∧
    ([0, 1] : List Nat).length = 2 ∧ (2 : Nat) ≠ 2 + 1 := by
  refine ⟨by decide, rfl, by decide⟩

/-- C1 (amended): the loader appends exactly one index entry per key per
*occurrence* of the key.  Hence (first conjunct) for a uniform synthetic
corpus of `K + 1` records each holding the key exactly once, the key's
index has exactly `(K + 1) + 1` entries, starts at 0, and is
non-decreasing — the claimed invariant holds whenever every record carries
every key exactly once; but (second conjunct) a single record carrying the
key twice already yields 3 = 1 + 2 entries. -/
theorem C1_index_amended (K : Nat) :
    (load_data
        ((List.replicate (K + 1) (frameRecord (mkPayload 107 [65]))).join)
        (K + 1) [] [] =
      .ok ([([107], .bytes (List.replicate (K + 1) 65))],
           [([107], 0 :: c1Index 0 (K + 1))]) ∧
      (0 :: c1Index 0 (K + 1)).length = (K + 1) + 1 ∧
      (0 :: c1Index 0 (K + 1)).head? = some 0 ∧
      List.Chain' (· ≤ ·) (0 :: c1Index 0 (K + 1))) ∧
    load_data (frameRecord dupPayload) 1 [] [] =
      .ok ([([107], .bytes [65, 65])], [([107], [0, 1, 2])]) := by
  refine ⟨⟨?_, ?_, rfl, c1Index_chain 0 (K + 1)⟩, by decide⟩
  · rw [List.replicate_succ]
    rw [show (frameRecord (mkPayload 107 [65]) ::
        List.replicate K (frameRecord (mkPayload 107 [65]))).join =
        frameRecord (mkPayload 107 [65]) ++
        (List.replicate K (frameRecord (mkPayload 107 [65]))).join from rfl]
    rw [load_data_frame (mkPayload 107 [65]) _ K _ _ (by norm_num [mkPayload]),
      decodePayload_one_fresh]
    dsimp only
    rw [load_data_replicate K [65] [0, 1]]
    rw [show ([65] : List Nat) ++ List.replicate K 65 =
        List.replicate (K + 1) 65 from by rw [List.replicate_succ]; rfl]
    rw [show ([0, 1] : List Nat) ++ c1Index ([65] : List Nat).length K =
        0 :: c1Index 0 (K + 1) from by rw [c1Index]; rfl]
  · simp [c1Index_length]

/-! ## Association list helpers for the creation step -/

theorem alookup_append_of_none (k : Key) (v : Elems) (l : Store)
    (h : alookup k l = none) : alookup k (l ++ [(k, v)]) = some v := by
  induction l with
  | nil => simp [alookup]
  | cons kv rest ih =>
    obtain ⟨k', v'⟩ := kv
    rw [alookup] at h
    rw [List.cons_append, alookup]
    by_cases hk : k' = k
    · rw [if_pos hk] at h; exact absurd h (by simp)
    · rw [if_neg hk] at h ⊢; exact ih h

/-- After the first-sight creation step the key is always present. -/
theorem alookup_after_create (key : Key) (arrays : Store) (b : Nat) :
    ∃ e, alookup key
      (if (alookup key arrays).isNone = true
        then arrays ++ [(key, emptyElems b)] else arrays) = some e := by
  rcases h : alookup key arrays with _ | e
  · refine ⟨emptyElems b, ?_⟩
    simp only [Option.isNone, if_true]
    exact alookup_append_of_none key (emptyElems b) arrays h
  · refine ⟨e, ?_⟩
    simp only [Option.isNone, Bool.false_eq_true, if_false]
    exact h

/-! ## Claim C6: unsupported value-kind dispatch byte -/

/-- A record payload whose value union carries the dispatch byte `0xFF`. -/
def badKindPayload : List Nat :=
  10 :: 11 :: (10 :: 0 :: 10 :: 1 :: 107 :: 18 :: 0 :: 255 :: 0 :: 10 :: 0 ::
    [])

/-- C6 (confirmed): whenever the dispatch byte at a value union is none of
`0x0A`/`0x1A`/`0x12`, the decoder fails with `UnsupportedFieldKind`
carrying that byte (first conjunct, for every payload, cursor position and
store state — the error is raised after the key's buffers may have been
created but before anything is appended); and a two-record load whose
second record carries dispatch byte `0xFF` returns only that error — no
store is produced, so the example closed by the first record is not
exposed in any modified form (second conjunct). -/
theorem C6_unsupported_kind :
    (∀ (data : List Nat) (offset : Nat) (key : Key) (arrays : Store)
      (indices : Indices) (b : Nat), data.get? offset = some b →
      b ≠ 10 → b ≠ 26 → b ≠ 18 →
      processValue data offset key arrays indices =
        .error (.unsupportedFieldKind b)) ∧
    load_data (frameRecord (mkPayload 107 [65]) ++ frameRecord badKindPayload)
        2 [] [] = .error (.unsupportedFieldKind 255) := by
  constructor
  · intro data offset key arrays indices b hget h10 h26 h18
    obtain ⟨e, he⟩ := alookup_after_create key arrays b
    rw [processValue, hget]
    dsimp only
    rw [he]
    dsimp only
    rw [if_neg h10, if_neg h26, if_neg h18]
  · decide

/-- C6 (witness): the dispatch-byte theorem instantiated at byte `0xFF` on
a concrete two-byte value union and a concrete store. -/
theorem C6_witness :
    processValue [255, 0] 0 [107] [([107], .bytes [65])] [([107], [0, 1])] =
      .error (.unsupportedFieldKind 255) :=
  C6_unsupported_kind.1 [255, 0] 0 [107] [([107], .bytes [65])]
    [([107], [0, 1])] 255 rfl (by decide) (by decide) (by decide)

/-! ## Claim C4: the two varint-length headers of a value entry -/

/-- C4 (counterexample): a value union whose first length header is `0` is
decoded successfully from just the two bytes `0x0A 0x00` — the Python
`get_value_of_kind(0x0A) and get_value_of_kind(0x0A)` short-circuits on the
falsy `np.int64(0)`, so only *one* varint-length header is consumed (the
final cursor lands at offset 2; a second header would need two more bytes
that this record does not contain). -/
theorem C4_counterexample :
    processValue [10, 0] 0 [107] [([107], .bytes [65])] [([107], [0, 1])] =
      .ok ([([107], .bytes [65])], [([107], [0, 1, 1])], 2) ∧
    ([10, 0] : List Nat).length = 2 := by
  exact ⟨by decide, rfl⟩

/-- C4 (amended): for a bytes-kind (`0x0A`) value entry whose *first*
declared length is non-zero, the decoder consumes exactly two varint-length
headers and then appends exactly as many raw bytes as the second header
declares (first conjunct: final offset `4 + l2` after the two two-byte
headers, appended slice of length exactly `l2`); when the first header is
zero, only that single header is consumed — the cursor advances exactly two
bytes and zero elements are appended — for each of the three dispatch bytes
(remaining conjuncts). -/
theorem C4_value_headers_amended :
    (∀ (l1 l2 : Nat) (rest cur ixs : List Nat) (key : Key),
      0 < l1 → l1 < 128 → l2 < 128 → l2 ≤ rest.length →
      processValue (10 :: l1 :: 10 :: l2 :: rest) 0 key
        [(key, .bytes cur)] [(key, ixs)] =
        .ok ([(key, .bytes (cur ++ rest.take l2))],
             [(key, ixs ++ [cur.length + l2])], 4 + l2) ∧
      (rest.take l2).length = l2) ∧
    (∀ cur ixs : List Nat,
      processValue [10, 0] 0 [107] [([107], .bytes cur)] [([107], ixs)] =
        .ok ([([107], .bytes cur)], [([107], ixs ++ [cur.length])], 2)) ∧
    (∀ cur ixs : List Nat,
      processValue [26, 0] 0 [107] [([107], .bytes cur)] [([107], ixs)] =
        .ok ([([107], .bytes cur)], [([107], ixs ++ [cur.length])], 2)) ∧
    (∀ cur ixs : List Nat,
      processValue [18, 0] 0 [107] [([107], .bytes cur)] [([107], ixs)] =
        .ok ([([107], .bytes cur)], [([107], ixs ++ [cur.length])], 2)) := by
  refine ⟨?_, ?_, ?_, ?_⟩
  · intro l1 l2 rest cur ixs key h0 hl1 hl2 hr
    refine ⟨?_, by rw [List.length_take, Nat.min_eq_left hr]⟩
    rw [processValue]
    rw [show (10 :: l1 :: 10 :: l2 :: rest).get? 0 = some 10 from rfl]
    dsimp only
    rw [show alookup key [(key, Elems.bytes cur)] = some (Elems.bytes cur) from
      by simp [alookup]]
    simp only [Option.isNone, Bool.false_eq_true, if_false]
    rw [show alookup key [(key, Elems.bytes cur)] = some (Elems.bytes cur) from
      by simp [alookup]]
    dsimp only
    rw [if_pos trivial]
    rw [gvk_single (10 :: l1 :: 10 :: l2 :: rest) 0 10 l1 rfl rfl hl1]
    dsimp only
    rw [if_neg (by rw [Int.natCast_eq_zero]; omega)]
    rw [gvk_single (10 :: l1 :: 10 :: l2 :: rest) (0 + 1 + 1) 10 l2 rfl rfl hl2]
    dsimp only
    rw [show List.drop (0 + 1 + 1 + 1 + 1) (10 :: l1 :: 10 :: l2 :: rest) =
      rest from rfl]
    rw [Int.toNat_natCast]
    dsimp only [Elems.frombytes]
    rw [show alookup key [(key, ixs)] = some ixs from by simp [alookup]]
    dsimp only [Option.getD, Elems.size]
    rw [show aset key (Elems.bytes (cur ++ rest.take l2))
        [(key, Elems.bytes cur)] =
      [(key, Elems.bytes (cur ++ rest.take l2))] from by simp [aset]]
    rw [show aset key (ixs ++ [(cur ++ rest.take l2).length]) [(key, ixs)] =
      [(key, ixs ++ [(cur ++ rest.take l2).length])] from by simp [aset]]
    rw [List.length_append, List.length_take, Nat.min_eq_left hr]
  · intro cur ixs
    have h : processValue [10, 0] 0 [107] [([107], .bytes cur)]
        [([107], ixs)] =
        .ok ([([107], .bytes (cur ++ []))],
             [([107], ixs ++ [(cur ++ []).length])], 2) := rfl
    simpa using h
  · intro cur ixs
    exact rfl
  · intro cur ixs
    have h : processValue [18, 0] 0 [107] [([107], .bytes cur)]
        [([107], ixs)] =
        .ok ([([107], .bytes (cur ++ []))],
             [([107], ixs ++ [(cur ++ []).length])], 2) := rfl
    simpa using h

/-- C4 (witness): the two-header theorem instantiated on a concrete entry
(`l1 = 3`, `l2 = 2`, three trailing bytes), and the one-header zero case on
a concrete store. -/
theorem C4_witness :
    processValue [10, 3, 10, 2, 7, 8, 9] 0 [107] [([107], .bytes [1])]
        [([107], [0, 1])] =
      .ok ([([107], .bytes [1, 7, 8])], [([107], [0, 1, 3])], 6) ∧
    processValue [26, 0] 0 [107] [([107], .bytes [1])] [([107], [0, 1])] =
      .ok ([([107], .bytes [1])], [([107], [0, 1, 1])], 2) := by
  constructor
  · have h := (C4_value_headers_amended.1 3 2 [7, 8, 9] [1] [0, 1] [107]
      (by decide) (by decide) (by decide) (by decide)).1
    exact h.trans (by decide)
  · have h := C4_value_headers_amended.2.2.1 [1] [0, 1]
    exact h.trans (by decide)

/-! ## Claim C3: no kind-consistency check across occurrences -/

/-- A record payload with key byte 107 whose value union uses the `0x1A`
packed-varint kind with the single varint `66`. -/
def packed66Payload : List Nat :=
  10 :: 12 :: (10 :: 0 :: 10 :: 1 :: 107 :: 18 :: 0 :: 26 :: 3 :: 10 :: 1 ::
    66 :: [])

/-- A record payload like `packed66Payload` but with the packed varint
`300` (two encoded bytes `0xAC 0x02`). -/
def packed300Payload : List Nat :=
  10 :: 13 :: (10 :: 0 :: 10 :: 1 :: 107 :: 18 :: 0 :: 26 :: 4 :: 10 :: 2 ::
    172 :: 2 :: [])

/-- C3 (counterexample): a corpus whose first record fixes key `[107]` to
the Bytes kind (`0x0A`) and whose second record presents the *same key*
with the `0x1A` packed-varint kind loads **successfully** — no error is
raised; the varint value `66` is silently coerced into the existing byte
buffer (final buffer `[65, 66]`). -/
theorem C3_counterexample :
    load_data (frameRecord (mkPayload 107 [65]) ++ frameRecord packed66Payload)
        2 [] [] =
      .ok ([([107], .bytes [65, 66])], [([107], [0, 1, 2])]) := by
  decide

/-- C3 (amended): the loader performs no kind-consistency check: once a
key's buffer kind is fixed by the first dispatch byte, a later occurrence
with a different dispatch byte is decoded according to *its own* byte and
its values are appended to the existing buffer.  A small varint (`66`) is
silently coerced into a Bytes buffer (first conjunct); an error surfaces
only incidentally, when the coerced value does not fit the buffer's element
type (varint `300` overflows a byte, second conjunct) — not from any kind
comparison. -/
theorem C3_kind_amended :
    load_data (frameRecord (mkPayload 107 [65]) ++ frameRecord packed66Payload)
        2 [] [] =
      .ok ([([107], .bytes [65, 66])], [([107], [0, 1, 2])]) ∧
    load_data (frameRecord (mkPayload 107 [65]) ++
        frameRecord packed300Payload) 2 [] [] =
      .error .overflowError := by
  exact ⟨by decide, by decide⟩

/-! ## Evaluator lemmas -/

theorem levenshtein_nil_right [DecidableEq α] (p : List α) :
    levenshtein p ([] : List α) = p.length := by
  cases p with
  | nil => rfl
  | cons x xs => rfl

/-- The `len(y_true) or 1` denominator equals `max len 1`. -/
theorem denom_or_eq_max (n : Nat) : (if n = 0 then 1 else n) = max n 1 := by
  cases n with
  | zero => rfl
  | succ n => rw [if_neg (by omega)]; omega

/-- The per-example loop of `evaluate` accumulates exactly one score per
`(gold, prediction)` pair. -/
theorem evaluate_foldl_eq_map (l : List (List α × List α)) [DecidableEq α] :
    ∀ init : List ℚ,
    l.foldl (fun acc gp => acc ++ metricUpdate none [gp.2] [gp.1]) init =
      init ++ l.map (fun gp => scoreOne none gp.2 gp.1) := by
  induction l with
  | nil => intro init; simp
  | cons gp rest ih =>
    intro init
    rw [List.foldl_cons, ih, List.map_cons]
    rw [show metricUpdate (α := α) none [gp.2] [gp.1] =
      [scoreOne none gp.2 gp.1] from rfl]
    simp

/-! ## Claim C5: the edit-distance metric -/

/-- C5 (confirmed): `EditDistanceMetric.update` with a configured ignore
token filters it out of both the predicted and the gold sequence before
the Levenshtein distance is computed, and divides each distance by
`max (length of filtered gold) 1` (first conjunct); an empty gold sequence
with a non-empty prediction scores exactly the prediction's length, the
denominator clamping to 1 (second conjunct); `MeanMetric.compute` on the
accumulated scores `[0, 0, 1, 1]` returns their arithmetic mean `1/2`,
i.e. `50` as a percentage (third and fourth conjuncts); and the spec's
filtering example — gold `[1,0,2]`, prediction `[1,0,2,0]`, ignore token
`0` — scores distance `0` (fifth conjunct). -/
theorem C5_metric :
    (∀ (ign : ℕ) (yPreds yTrues : List (List ℕ)),
      metricUpdate (some ign) yPreds yTrues =
        (yPreds.zip yTrues).map (fun py =>
          (levenshtein (py.1.filter (· ≠ ign)) (py.2.filter (· ≠ ign)) : ℚ) /
            ((max (py.2.filter (· ≠ ign)).length 1 : Nat) : ℚ))) ∧
    (∀ p : List ℕ, p ≠ [] →
      metricUpdate (none : Option ℕ) [p] [[]] = [((p.length : Nat) : ℚ)]) ∧
    meanCompute [0, 0, 1, 1] = 1 / 2 ∧
    (100 : ℚ) * meanCompute [0, 0, 1, 1] = 50 ∧
    metricUpdate (some 0) [[1, 0, 2, 0]] [[1, 0, 2]] = [0] := by
  refine ⟨?_, ?_, ?_, ?_, ?_⟩
  · intro ign yPreds yTrues
    apply List.map_congr_left
    intro py _
    rw [scoreOne]
    rw [denom_or_eq_max]
  · intro p hp
    rw [show metricUpdate (none : Option ℕ) [p] [[]] =
      [scoreOne none p []] from rfl]
    rw [scoreOne]
    rw [levenshtein_nil_right p]
    norm_num
  · norm_num [meanCompute]
  · norm_num [meanCompute]
  · norm_num [metricUpdate, scoreOne]
    rfl

/-- C5 (witness): the empty-gold clause instantiated at the concrete
prediction `[5, 6]` (score = its length, 2). -/
theorem C5_witness :
    metricUpdate (none : Option ℕ) [[5, 6]] [[]] =
      [((([5, 6] : List ℕ).length : Nat) : ℚ)] ∧
    ([5, 6] : List ℕ).length = 2 :=
  ⟨C5_metric.2.1 [5, 6] (by decide), rfl⟩

/-! ## Claim C10: `update` on differing batch sizes -/

/-- C10 (confirmed): `EditDistanceMetric.update` never fails on differing
batch sizes — it is a total function whose `zip` truncates to the shorter
side: exactly `min n m` scores are produced (first conjunct), and they are
exactly the scores of the first `min n m` pairs — the excess entries of the
longer argument are ignored (second conjunct). -/
theorem C10_update_truncates :
    (∀ (ign : Option ℕ) (yPreds yTrues : List (List ℕ)),
      (metricUpdate ign yPreds yTrues).length =
        min yPreds.length yTrues.length) ∧
    (∀ (ign : Option ℕ) (yPreds yTrues : List (List ℕ)),
      metricUpdate ign yPreds yTrues =
        metricUpdate ign (yPreds.take (min yPreds.length yTrues.length))
          (yTrues.take (min yPreds.length yTrues.length))) := by
  constructor
  · intro ign yPreds yTrues
    rw [metricUpdate, List.length_map, List.length_zip]
  · intro ign yPreds yTrues
    rw [metricUpdate, metricUpdate]
    rw [show (yPreds.take (min yPreds.length yTrues.length)).zip
        (yTrues.take (min yPreds.length yTrues.length)) =
        (yPreds.zip yTrues).take (min yPreds.length yTrues.length) from
      (List.take_zipWith ).symm]
    rw [show (yPreds.zip yTrues).take (min yPreds.length yTrues.length) =
      yPreds.zip yTrues from by
        rw [show min yPreds.length yTrues.length = (yPreds.zip yTrues).length
            from (List.length_zip _ _).symm]
        exact List.take_length _]

/-! ## Claim C7: size mismatch in batch evaluation -/

/-- C7 (confirmed): `evaluate` on `m` predictions against `n` gold examples
fails with the size-mismatch error whenever `m ≠ n`, returning no score —
in the `Except` model no prefix is scored (first conjunct); when `m = n` it
returns `100 ×` the mean of exactly one score per pair, i.e. all `n` pairs
are scored (second conjunct, with the score count `n` made explicit in the
third). -/
theorem C7_size_mismatch :
    (∀ gold predictions : List (List ℕ),
      predictions.length ≠ gold.length →
      evaluate gold predictions = .error .sizeMismatch) ∧
    (∀ gold predictions : List (List ℕ),
      predictions.length = gold.length →
      evaluate gold predictions =
        .ok (100 * meanCompute ((gold.zip predictions).map
          (fun gp => scoreOne none gp.2 gp.1))) ∧
      ((gold.zip predictions).map
        (fun gp => scoreOne none gp.2 gp.1)).length = gold.length) := by
  constructor
  · intro gold predictions h
    rw [evaluate, if_pos h]
  · intro gold predictions h
    constructor
    · rw [evaluate, if_neg (by omega)]
      rw [evaluate_foldl_eq_map (gold.zip predictions) []]
      rw [List.nil_append]
    · rw [List.length_map, List.length_zip, h]
      exact inf_idem _

/-- C7 (witness): evaluating 3 gold examples against 2 predictions fails
with the size-mismatch error; evaluating 2 against 2 scores both pairs. -/
theorem C7_witness :
    evaluate [[1], [2], [3]] [[1], [5]] = .error .sizeMismatch ∧
    evaluate [[1], [2]] ([[1], [2]] : List (List ℕ)) =
      .ok (100 * meanCompute (([[1], [2]].zip [[1], [2]]).map
        (fun gp => scoreOne none gp.2 gp.1))) := by
  constructor
  · exact C7_size_mismatch.1 [[1], [2], [3]] [[1], [5]] (by decide)
  · exact (C7_size_mismatch.2 [[1], [2]] [[1], [2]] rfl).1

/-! ## Claim C9: eager versus decode-on-demand access -/

theorem allSome_eq_some (l : List (Option α)) (out : List α)
    (h : allSome l = some out) : l = out.map some := by
  induction l generalizing out with
  | nil =>
    rw [allSome] at h
    cases h
    rfl
  | cons o rest ih =>
    cases o with
    | none => exact absurd h (by simp [allSome])
    | some x =>
      rw [allSome] at h
      rcases hr : allSome rest with _ | out'
      · rw [hr] at h
        exact absurd h (by rw [Option.map_none']
                           exact fun hcon => Option.noConfusion hcon)
      · rw [hr] at h
        simp only [Option.map_some'] at h
        cases h
        rw [List.map_cons, ih out' hr]

/-- C9 (confirmed): for every loaded store and every valid index, the
element served by the eager dataset (`decode_on_demand = False`, all
examples decoded and cached at construction) equals the element served by
the lazy dataset (`decode_on_demand = True`, decoded on access from the
retained arrays and indices) — both are `Dataset._decode` of the same
stores at the same index. -/
theorem C9_eager_lazy_agree (arrays : Store) (indices : Indices)
    (size i : Nat) (d₁ d₂ : Dataset) (hi : i < size)
    (h₁ : mkDataset arrays indices size false = some d₁)
    (h₂ : mkDataset arrays indices size true = some d₂) :
    getItem d₁ i = getItem d₂ i := by
  rw [mkDataset, if_pos rfl] at h₂
  cases h₂
  rw [mkDataset] at h₁
  rw [if_neg (by simp)] at h₁
  rcases hall : allSome ((List.range size).map (decodeExample arrays indices))
    with _ | cache
  · rw [hall] at h₁; exact absurd h₁ (by simp)
  · rw [hall] at h₁
    cases h₁
    have hmap := allSome_eq_some _ _ hall
    have hlen : cache.length = size := by
      have hcl := congrArg List.length hmap
      simp at hcl
      omega
    have h1 : (cache.get? i).map some =
        some (decodeExample arrays indices i) := by
      rw [← List.get?_map some cache, ← hmap, List.get?_map,
        List.get?_range hi]
      rfl
    have hpt : cache.get? i = decodeExample arrays indices i := by
      rcases hc : cache.get? i with _ | x
      · rw [hc] at h1
        exact absurd h1 (by rw [Option.map_none']
                            exact fun hcon => Option.noConfusion hcon)
      · rw [hc] at h1
        exact Option.some.inj h1
    have hne : cache ≠ [] := by
      intro hnil
      rw [hnil] at hlen
      simp at hlen
      omega
    rw [getItem]
    dsimp only
    rw [if_pos hne, hpt, getItem]

/-- C9 (witness): the agreement theorem instantiated on a concrete loaded
store (two examples: image byte ranges `[1,2]`/`[3,4]`, marks `[]`/
`[7,8,9]`) at index 1. -/
theorem C9_witness :
    getItem ⟨2, some [⟨[1, 2], []⟩, ⟨[3, 4], [7, 8, 9]⟩], none, none⟩ 1 =
      getItem ⟨2, none,
        some [(keyImage, .bytes [1, 2, 3, 4]), (keyMarks, .ints [7, 8, 9])],
        some [(keyImage, [0, 2, 4]), (keyMarks, [0, 0, 3])]⟩ 1 := by
  exact C9_eager_lazy_agree
    [(keyImage, .bytes [1, 2, 3, 4]), (keyMarks, .ints [7, 8, 9])]
    [(keyImage, [0, 2, 4]), (keyMarks, [0, 0, 3])] 2 1 _ _
    (by decide) (by decide) (by decide)

end HOMR
